import Mathlib

/-!
Verification of the happymoves signaling server (mhdhssn967/signaling-server-happymoves).

Shallow embedding of the three source variants:

* `server.js` (ws-library variant): session registry (`clients` / `rooms` maps),
  the relay dispatcher (`broadcast`), `cleanupClient`, and the per-message
  handler (`join` / `offer` / `answer` / `ice-candidate` / `leave`) plus the
  `close` handler.
* `server.cjs` (stream-bridge variant): the WebSocket-to-TCP bridge adapter,
  its config binding, the newline framing loop on backend data, and the
  backend error/close handlers.
* `src/unnamed/part_000` second file (hardcoded-host bridge variant): its
  backend error handler.

Modelling conventions, stated once:

* JSON values are the inductive `JVal`; a JS object is an association list
  with unique keys in property order (`Obj`), as produced by `JSON.parse`.
  `JSON.parse` / `JSON.stringify` themselves are treated as a faithful
  bijection between such values and wire bytes; the embedding works at the
  value level.  A WebSocket message whose text is not valid JSON is a caught
  parse error in `server.js` (a no-op there) and is the `WsMsg.nonJson` case
  in the bridge.
* Session identifiers are strings, per the protocol (spec data model §3);
  a `join` whose `roomId` is a truthy non-string JS value is outside the
  embedding and modelled as a no-op.
* A thrown-and-uncaught JS exception is modelled as `Option.none` of the
  affected operation (`cleanupClient`, `handleClose`, `cjsStep`); the
  `server.js` message handler wraps its body in try/catch, so there a throw
  from `cleanupClient` yields the unchanged state.
* `Conn.wsOpen` models `ws.readyState === ws.OPEN`.
* Backend `data` chunks are byte lists (`Nat`s below 256).  Each chunk is
  decoded independently by `data.toString()` — Node keeps no decoder state
  across `data` events — modelled by `utf8Decode`, WHATWG UTF-8 decoding
  with replacement, matching `Buffer.toString('utf8')`; only then is the
  text appended to the string buffer and framed.
* Socket identifiers are generated collision-free for the process lifetime
  (`Date.now() + random`); connection events therefore carry a freshness
  hypothesis.
-/

/-- A JSON value (the result of `JSON.parse`). Object fields are kept in
property order with unique keys. -/
inductive JVal where
  | null : JVal
  | bool : Bool → JVal
  | num : Int → JVal
  | str : String → JVal
  | arr : List JVal → JVal
  | obj : List (String × JVal) → JVal

/-- A JS object: fields in property order, keys unique. -/
abbrev Obj := List (String × JVal)

/-- JS truthiness of a value. -/
def jsTruthy : JVal → Bool
  | .null => false
  | .bool b => b
  | .num n => n != 0
  | .str s => s != ""
  | .arr _ => true
  | .obj _ => true

/-- JS truthiness of a possibly-undefined value (`undefined` is falsy). -/
def jsTruthyO : Option JVal → Bool
  | none => false
  | some v => jsTruthy v

/-- JS strict equality `v === s` between a value and a string. -/
def jvalEqStr : JVal → String → Bool
  | .str a, b => a == b
  | _, _ => false

/-- Property read `o[k]` (fields have unique keys, first match). -/
def getField (o : Obj) (k : String) : Option JVal :=
  (o.find? (fun p => p.1 == k)).map (fun p => p.2)

/-- Rest-spread `{k: _, ...rest} = o`: all fields except `k`. -/
def eraseField (o : Obj) (k : String) : Obj :=
  o.filter (fun p => p.1 != k)

/-- JS property assignment semantics inside an object literal: overwrite the
value in place if the key exists, append otherwise. -/
def insertField (o : Obj) (k : String) (v : JVal) : Obj :=
  if o.any (fun p => p.1 == k) then
    o.map (fun p => if p.1 == k then (k, v) else p)
  else o ++ [(k, v)]

/-- The object literal `{ ...base fields..., ...spread }`: the spread's
fields are applied after the explicit ones and override them. -/
def objLitSpread (base : Obj) (spread : Obj) : Obj :=
  spread.foldl (fun acc p => insertField acc p.1 p.2) base

/-- server.js broadcast, line 82/86: the delivered payload
`{ from: senderId, ...payload }`. -/
def deliveredPayload (senderId : String) (payload : Obj) : Obj :=
  objLitSpread [("from", JVal.str senderId)] payload

/-- An entry of the `clients` map of server.js: one live WebSocket
connection with its assigned id and current room (never reset on leave,
exactly as in the source). -/
structure Conn where
  wsOpen : Bool
  id : String
  roomId : Option String
deriving DecidableEq, Repr

/-- The in-memory state of server.js: the `clients` map (in connection
order) and the `rooms` map (`roomId ↦ Set<socketId>`, insertion order). -/
structure SState where
  clients : List Conn
  rooms : List (String × List String)
deriving DecidableEq, Repr

/-- One `sendToClient` call that actually sent (recipient socket open):
recipient id, envelope type, payload object. -/
structure Delivery where
  recipient : String
  etype : String
  payload : Obj

/-- `rooms.get(r)` of the rooms map. -/
def findRoom (rooms : List (String × List String)) (r : String) :
    Option (List String) :=
  (rooms.find? (fun p => p.1 == r)).map (fun p => p.2)

/-- Replace the member set of an existing room key. -/
def updateRoom (rooms : List (String × List String)) (r : String)
    (ms : List String) : List (String × List String) :=
  rooms.map (fun p => if p.1 == r then (r, ms) else p)

/-- `rooms.delete(r)`. -/
def eraseRoom (rooms : List (String × List String)) (r : String) :
    List (String × List String) :=
  rooms.filter (fun p => p.1 != r)

/-- `rooms.set(r, ms)`: overwrite in place if present, append otherwise. -/
def setRoom (rooms : List (String × List String)) (r : String)
    (ms : List String) : List (String × List String) :=
  if (findRoom rooms r).isSome then updateRoom rooms r ms
  else rooms ++ [(r, ms)]

/-- `Set.add`: append if absent (JS Set keeps insertion order). -/
def addMember (ms : List String) (c : String) : List String :=
  if c ∈ ms then ms else ms ++ [c]

/-- server.js `broadcast(senderId, roomId, type, payload, toSocketId)`,
lines 68–90.  Returns the deliveries actually sent, in client order.
`target = none` models an absent `toSocketId` (`undefined`). -/
def broadcastD (st : SState) (senderId : String) (r : String) (ty : String)
    (payload : Obj) (target : Option JVal) : List Delivery :=
  match findRoom st.rooms r with
  | none => []
  | some _ =>
    st.clients.filterMap (fun c =>
      if c.wsOpen && (c.roomId == some r) then
        match target with
        | some t =>
          if jsTruthy t then
            if jvalEqStr t c.id then
              some ⟨c.id, ty, deliveredPayload senderId payload⟩
            else none
          else if c.id != senderId then
            some ⟨c.id, ty, deliveredPayload senderId payload⟩
          else none
        | none =>
          if c.id != senderId then
            some ⟨c.id, ty, deliveredPayload senderId payload⟩
          else none
      else none)

/-- The fallback scan of `cleanupClient`:
`Array.from(rooms.keys()).find(key => rooms.get(key).has(socketId))`. -/
def fbRoom (st : SState) (socketId : String) : Option String :=
  (st.rooms.find? (fun p => decide (socketId ∈ p.2))).map (fun p => p.1)

/-- `const roomToLeave = roomId || Array.from(rooms.keys()).find(...)`
(JS `||`: a null or empty-string roomId falls back to the scan). -/
def roomToLeave (st : SState) (socketId : String) (roomId : Option String) :
    Option String :=
  match roomId with
  | some r => if r == "" then fbRoom st socketId else some r
  | none => fbRoom st socketId

/-- The body of `cleanupClient` once the room to leave exists in the
registry: delete the member, broadcast `peer-left` to the remaining peers
(from the already-updated registry), delete the room if emptied. -/
def cleanupApply (st : SState) (socketId r : String) (ms : List String) :
    SState × List Delivery :=
  let ms2 := ms.erase socketId
  let st2 : SState := { st with rooms := updateRoom st.rooms r ms2 }
  let ds := if ms2.isEmpty then []
    else broadcastD st2 socketId r "peer-left"
      [("socketId", JVal.str socketId)] none
  let st3 := if ms2.isEmpty then { st2 with rooms := eraseRoom st2.rooms r }
    else st2
  (st3, ds)

/-- server.js `cleanupClient(socketId, roomId)`, lines 97–112.
`none` models the uncaught `TypeError` raised by
`rooms.get(roomToLeave).delete(...)` when `roomToLeave` names a room that is
no longer in the registry. -/
def cleanupClient (st : SState) (socketId : String) (roomId : Option String) :
    Option (SState × List Delivery) :=
  match roomToLeave st socketId roomId with
  | none => some (st, [])
  | some r =>
    match findRoom st.rooms r with
    | none => none
    | some ms => some (cleanupApply st socketId r ms)

/-- The `error` envelope replies sent with `sendToClient` (only if the
socket is open). -/
def errReply (ci : Conn) (msg : String) : List Delivery :=
  if ci.wsOpen then [⟨ci.id, "error", [("message", JVal.str msg)]⟩] else []

/-- The `SIGNALING_SECRET && secret !== SIGNALING_SECRET` join guard:
`true` when the join may proceed. -/
def secretOk (cfg : Option String) (payload : Obj) : Bool :=
  match cfg with
  | none => true
  | some s =>
    match getField payload "secret" with
    | some v => jvalEqStr v s
    | none => false

/-- server.js message handler, `join` case (lines 140–168): roomId and
secret guards, leave any existing room, create/extend the target room,
update the client's record, broadcast `peer-joined`, reply `joined` with
the participant snapshot. -/
def joinCase (cfg : Option String) (st : SState) (i : Nat) (ci : Conn)
    (payload : Obj) : SState × List Delivery :=
  match getField payload "roomId" with
  | some (JVal.str r) =>
    if r == "" then (st, errReply ci "roomId required")
    else if !secretOk cfg payload then (st, errReply ci "invalid secret")
    else
      match cleanupClient st ci.id ci.roomId with
      | none => (st, [])
      | some (st1, ds1) =>
        let pre := (findRoom st1.rooms r).getD []
        let ms2 := addMember pre ci.id
        let st2 : SState :=
          { clients := st1.clients.set i ⟨ci.wsOpen, ci.id, some r⟩,
            rooms := setRoom st1.rooms r ms2 }
        let ds2 := broadcastD st2 ci.id r "peer-joined"
          [("socketId", JVal.str ci.id)] none
        let participants := ms2.filter (fun m => m != ci.id)
        let ds3 := if ci.wsOpen then
            [⟨ci.id, "joined",
              [("roomId", JVal.str r),
               ("participants", JVal.arr (participants.map JVal.str))]⟩]
          else []
        (st2, ds1 ++ ds2 ++ ds3)
  | some v =>
    -- a truthy non-string session identifier is outside the embedding
    if jsTruthy v then (st, [])
    else (st, errReply ci "roomId required")
  | none => (st, errReply ci "roomId required")

/-- server.js message handler, `offer`/`answer`/`ice-candidate` case
(lines 171–182): destructure `toSocketId`, require a current room and an
`sdp` or `candidate` field, then dispatch via `broadcast`. -/
def relayCase (st : SState) (ci : Conn) (ev : String) (payload : Obj) :
    SState × List Delivery :=
  let target := getField payload "toSocketId"
  let rest := eraseField payload "toSocketId"
  match ci.roomId with
  | none => (st, [])
  | some r =>
    if r == "" then (st, [])
    else if jsTruthyO (getField rest "sdp") ||
        jsTruthyO (getField rest "candidate") then
      (st, broadcastD st ci.id r ev rest target)
    else (st, [])

/-- server.js message handler, `leave` case (lines 184–186).  A throw from
`cleanupClient` is caught by the handler's try/catch: no state change, no
deliveries. -/
def leaveCase (st : SState) (ci : Conn) : SState × List Delivery :=
  match cleanupClient st ci.id ci.roomId with
  | none => (st, [])
  | some p => p

/-- The Unity event-name aliasing (line 136): `'ice'` maps to
`'ice-candidate'`. -/
def aliasEvent (t : String) : String :=
  if t == "ice" then "ice-candidate" else t

/-- server.js `ws.on("message")` handler (lines 123–196) after a successful
`JSON.parse`: type guard, `ice` aliasing, and the event switch.  A message
that fails to parse is a caught error and a no-op, hence not modelled as an
event. -/
def handleMessage (cfg : Option String) (st : SState) (i : Nat) (m : JVal) :
    SState × List Delivery :=
  match st.clients.get? i with
  | none => (st, [])
  | some ci =>
    match m with
    | JVal.obj fields =>
      match getField fields "type" with
      | some tv =>
        if jsTruthy tv then
          match tv with
          | JVal.str t =>
            if aliasEvent t == "join" then
              joinCase cfg st i ci (eraseField fields "type")
            else if aliasEvent t == "offer" || aliasEvent t == "answer" ||
                aliasEvent t == "ice-candidate" then
              relayCase st ci (aliasEvent t) (eraseField fields "type")
            else if aliasEvent t == "leave" then leaveCase st ci
            else (st, [])
          | _ => (st, [])
        else (st, [])
      | none => (st, [])
    | _ => (st, [])

/-- server.js `ws.on("close")` handler (lines 199–206): cleanup, then
remove the client record.  The handler body is not wrapped in try/catch, so
a `cleanupClient` throw is an uncaught exception: `none`. -/
def handleClose (st : SState) (i : Nat) : Option (SState × List Delivery) :=
  match st.clients.get? i with
  | none => some (st, [])
  | some ci =>
    match cleanupClient st ci.id ci.roomId with
    | none => none
    | some (st1, ds) =>
      some ({ st1 with clients := st1.clients.eraseIdx i }, ds)

/-- server.js `wss.on("connection")` (lines 115–118): register the new
socket with a fresh id and no room. -/
def handleConnect (st : SState) (newId : String) : SState :=
  { st with clients := st.clients ++ [⟨true, newId, none⟩] }

/-- The states of server.js reachable from the empty registry by any
sequence of connection, message (join / leave / relay / other), and
disconnect operations.  A `close` whose cleanup throws kills the process,
so it yields no successor state. -/
inductive Reachable (cfg : Option String) : SState → Prop where
  | init : Reachable cfg ⟨[], []⟩
  | connect {st : SState} {id : String} : Reachable cfg st →
      id ∉ st.clients.map Conn.id → Reachable cfg (handleConnect st id)
  | message {st : SState} {i : Nat} {m : JVal} : Reachable cfg st →
      Reachable cfg (handleMessage cfg st i m).1
  | close {st st' : SState} {i : Nat} {ds : List Delivery} :
      Reachable cfg st → handleClose st i = some (st', ds) →
      Reachable cfg st'

/-- The inductive invariant of the server.js registry state. -/
structure RegInv (st : SState) : Prop where
  keysNodup : (st.rooms.map Prod.fst).Nodup
  nonempty : ∀ p ∈ st.rooms, p.2 ≠ []
  memNodup : ∀ p ∈ st.rooms, p.2.Nodup
  idsNodup : (st.clients.map Conn.id).Nodup
  memberRecorded : ∀ r ms id, (r, ms) ∈ st.rooms → id ∈ ms →
      ∃ c ∈ st.clients, c.id = id ∧ c.roomId = some r

/-- The outbound wire envelope of server.js `sendToClient`
(line 54: `JSON.stringify({ type, payload })`). -/
structure Envelope where
  etype : String
  payload : Obj

/-- `sendToClient` encoding: the envelope as the wire object
`{ type, payload }`. -/
def encode (e : Envelope) : Obj :=
  [("type", JVal.str e.etype), ("payload", JVal.obj e.payload)]

/-- server.js inbound decoding (lines 125–133): parse, require a truthy
`type`, and destructure `{type, ...payload}`.  A non-object or non-string
`type` never reaches any relay case. -/
def decode (o : Obj) : Option Envelope :=
  match getField o "type" with
  | some (JVal.str t) =>
    if t == "" then none else some ⟨t, eraseField o "type"⟩
  | _ => none

/-- The framing loop of server.cjs `unitySocket.on("data")` (lines 71–96):
scan the buffer, cutting a segment at each newline; first component is the
list of cut segments in order, second the residual buffer. -/
def frameGo : List Char → List Char → List (List Char) × List Char
  | cur, [] => ([], cur.reverse)
  | cur, c :: rest =>
    if c = '\n' then
      (cur.reverse :: (frameGo [] rest).1, (frameGo [] rest).2)
    else frameGo (c :: cur) rest

/-- A complete message is forwarded only when
`completeMessage.trim().length > 0`. -/
def nonBlank (s : List Char) : Bool :=
  s.any (fun c => !c.isWhitespace)

/-- The text-level part of one `data` event: append the already-decoded
chunk text to the (string) buffer, emit the non-blank complete messages,
keep the residual buffer. -/
def feedEmit (buf chunk : List Char) : List (List Char) × List Char :=
  ((frameGo [] (buf ++ chunk)).1.filter nonBlank,
   (frameGo [] (buf ++ chunk)).2)

/-- A sequence of already-decoded text chunks processed in order,
collecting all emitted messages and the final residual buffer. -/
def feedAll (buf : List Char) : List (List Char) → List (List Char) × List Char
  | [] => ([], buf)
  | ch :: rest =>
    ((feedEmit buf ch).1 ++ (feedAll (feedEmit buf ch).2 rest).1,
     (feedAll (feedEmit buf ch).2 rest).2)

/-- The U+FFFD replacement character. -/
def replChar : Char := Char.ofNat 0xFFFD

/-- `Buffer.prototype.toString('utf8')` on one byte chunk: WHATWG UTF-8
decoding with replacement, as Node performs it.  Each maximal invalid or
truncated sequence yields one U+FFFD; a byte that fails a continuation
check is reprocessed as a new lead.  Bytes are `Nat`s below 256. -/
def utf8Decode : List Nat → List Char
  | [] => []
  | b :: rest =>
    if b ≤ 0x7F then Char.ofNat b :: utf8Decode rest
    else if 0xC2 ≤ b ∧ b ≤ 0xDF then
      match rest with
      | [] => [replChar]
      | c1 :: rest1 =>
        if 0x80 ≤ c1 ∧ c1 ≤ 0xBF then
          Char.ofNat ((b - 0xC0) * 0x40 + (c1 - 0x80)) :: utf8Decode rest1
        else replChar :: utf8Decode (c1 :: rest1)
    else if 0xE0 ≤ b ∧ b ≤ 0xEF then
      match rest with
      | [] => [replChar]
      | c1 :: rest1 =>
        if (if b = 0xE0 then 0xA0 else 0x80) ≤ c1 ∧
            c1 ≤ (if b = 0xED then 0x9F else 0xBF) then
          match rest1 with
          | [] => [replChar]
          | c2 :: rest2 =>
            if 0x80 ≤ c2 ∧ c2 ≤ 0xBF then
              Char.ofNat ((b - 0xE0) * 0x1000 + (c1 - 0x80) * 0x40 +
                (c2 - 0x80)) :: utf8Decode rest2
            else replChar :: utf8Decode (c2 :: rest2)
        else replChar :: utf8Decode (c1 :: rest1)
    else if 0xF0 ≤ b ∧ b ≤ 0xF4 then
      match rest with
      | [] => [replChar]
      | c1 :: rest1 =>
        if (if b = 0xF0 then 0x90 else 0x80) ≤ c1 ∧
            c1 ≤ (if b = 0xF4 then 0x8F else 0xBF) then
          match rest1 with
          | [] => [replChar]
          | c2 :: rest2 =>
            if 0x80 ≤ c2 ∧ c2 ≤ 0xBF then
              match rest2 with
              | [] => [replChar]
              | c3 :: rest3 =>
                if 0x80 ≤ c3 ∧ c3 ≤ 0xBF then
                  Char.ofNat ((b - 0xF0) * 0x40000 + (c1 - 0x80) * 0x1000 +
                    (c2 - 0x80) * 0x40 + (c3 - 0x80)) :: utf8Decode rest3
                else replChar :: utf8Decode (c3 :: rest3)
            else replChar :: utf8Decode (c2 :: rest2)
        else replChar :: utf8Decode (c1 :: rest1)
    else replChar :: utf8Decode rest

/-- One backend `data` event as the source performs it (server.cjs
lines 73–74): the byte chunk is decoded by `data.toString()` independently
of every other chunk — Node keeps no decoder state across `data` events —
then appended to the string buffer and framed. -/
def feedEmitBytes (buf : List Char) (chunk : List Nat) :
    List (List Char) × List Char :=
  feedEmit buf (utf8Decode chunk)

/-- A sequence of backend `data` events over byte chunks, each decoded
independently, collecting all emitted messages and the final residual
buffer. -/
def feedAllBytes (buf : List Char) :
    List (List Nat) → List (List Char) × List Char
  | [] => ([], buf)
  | ch :: rest =>
    ((feedEmitBytes buf ch).1 ++ (feedAllBytes (feedEmitBytes buf ch).2 rest).1,
     (feedAllBytes (feedEmitBytes buf ch).2 rest).2)

/-- An inbound WebSocket message on the bridge: either text that fails
`JSON.parse`, or text paired with its parsed value. -/
inductive WsMsg where
  | nonJson (raw : String)
  | json (raw : String) (v : JVal)

/-- The observable side effects of the bridge handlers. -/
inductive BOut where
  | sendWs (text : String)
  | sendStatus (data : String)
  | writeBackend (text : String)
  | closeWs
  | endBackend
deriving DecidableEq, Repr

/-- The backend binding of a bridge pair: the host/port taken from the
config message and the identity of the `net.Socket` created for it. -/
structure Binding where
  host : Option JVal
  port : Option JVal
  sockId : Nat

/-- Bound/unbound state of a bridge pair (`unitySocket` null or set). -/
inductive Link where
  | unbound
  | bound (b : Binding)

/-- State of one bridge connection pair in server.cjs. -/
structure PairState where
  link : Link
  wsClosed : Bool
  backendBuffer : List Char

/-- Events a bridge pair reacts to.  `wsMessage` carries the fresh socket
identity a config message would create; `backendError` / `backendClose`
are the backend stream failure events (Node guarantees `close` follows
`error`). -/
inductive BEvent where
  | wsMessage (m : WsMsg) (freshSock : Nat)
  | wsClose
  | backendConnected
  | backendData (chunk : List Nat)
  | backendError
  | backendClose

/-- `parsed.type === "config"` on a parsed JSON value. -/
def typeIsConfig : JVal → Bool
  | .obj fs =>
    match getField fs "type" with
    | some (JVal.str t) => t == "config"
    | _ => false
  | _ => false

/-- Whether an inbound bridge message is a configuration message. -/
def isConfigMsg : WsMsg → Bool
  | .json _ v => typeIsConfig v
  | .nonJson _ => false

/-- Whether the message's JSON value is `null` (then `parsed.type` throws). -/
def isNullJson : WsMsg → Bool
  | .json _ JVal.null => true
  | _ => false

/-- The raw text of an inbound bridge message. -/
def rawText : WsMsg → String
  | .nonJson raw => raw
  | .json raw _ => raw

/-- `parsed.unityHost` of a config message. -/
def msgHost : WsMsg → Option JVal
  | .json _ (JVal.obj fs) => getField fs "unityHost"
  | _ => none

/-- `parsed.unityPort` of a config message. -/
def msgPort : WsMsg → Option JVal
  | .json _ (JVal.obj fs) => getField fs "unityPort"
  | _ => none

/-- server.cjs bridge pair step (lines 43–122): `none` models an uncaught
exception in the ws message handler (`parsed.type` on `null`). -/
def cjsStep (st : PairState) : BEvent → Option (PairState × List BOut)
  | .wsMessage m fresh =>
    match m with
    | .nonJson raw =>
      match st.link with
      | .bound _ => some (st, [.writeBackend (raw ++ "\n")])
      | .unbound => some (st, [])
    | .json raw v =>
      match v with
      | .null => none
      | _ =>
        if typeIsConfig v then
          some ({ st with link := .bound ⟨msgHost (.json raw v),
                    msgPort (.json raw v), fresh⟩ },
                [.sendStatus "Connecting..."])
        else
          match st.link with
          | .bound _ => some (st, [.writeBackend (raw ++ "\n")])
          | .unbound => some (st, [])
  | .wsClose =>
    match st.link with
    | .bound _ =>
      some ({ st with wsClosed := true, backendBuffer := [] }, [.endBackend])
    | .unbound => some ({ st with wsClosed := true }, [])
  | .backendConnected => some (st, [.sendStatus "Connected to Unity"])
  | .backendData chunk =>
    some ({ st with backendBuffer := (feedEmitBytes st.backendBuffer chunk).2 },
          ((feedEmitBytes st.backendBuffer chunk).1.map
            (fun seg => .sendWs (String.mk seg))))
  | .backendError => some (st, [.sendStatus "Unity connection failed"])
  | .backendClose => some ({ st with wsClosed := true }, [.closeWs])

/-- The hardcoded-host bridge variant (src/unnamed/part_000, second file):
the backend is bound at connection time; on backend error the browser
socket is closed with no status envelope (lines 212–215). -/
def hardcodedStep (st : PairState) : BEvent → Option (PairState × List BOut)
  | .wsMessage m _ => some (st, [.writeBackend (rawText m ++ "\n")])
  | .wsClose => some ({ st with wsClosed := true }, [.endBackend])
  | .backendConnected => some (st, [.sendStatus "Connected to Unity"])
  | .backendData chunk =>
    some ({ st with backendBuffer := (feedEmitBytes st.backendBuffer chunk).2 },
          ((feedEmitBytes st.backendBuffer chunk).1.map
            (fun seg => .sendWs (String.mk seg))))
  | .backendError => some ({ st with wsClosed := true }, [.closeWs])
  | .backendClose => some ({ st with wsClosed := true }, [.closeWs])

/-- Run a sequence of bridge events, concatenating the side effects; an
uncaught exception aborts the run. -/
def runEvents (step : PairState → BEvent → Option (PairState × List BOut))
    (st : PairState) : List BEvent → Option (PairState × List BOut)
  | [] => some (st, [])
  | e :: es =>
    match step st e with
    | none => none
    | some (st2, out) =>
      match runEvents step st2 es with
      | none => none
      | some (st3, out2) => some (st3, out ++ out2)

/-- A `{type: "join", roomId: "r"}` message. -/
def joinMsgR : JVal :=
  JVal.obj [("type", JVal.str "join"), ("roomId", JVal.str "r")]

/-- Trace for C2's counterexample: connections a, b, c all join room r,
then c leaves (its recorded `roomId` is left stale, as in the source). -/
def c2State : SState :=
  let s0 := handleConnect (handleConnect (handleConnect ⟨[], []⟩ "a") "b") "c"
  let s1 := (handleMessage none s0 0 joinMsgR).1
  let s2 := (handleMessage none s1 1 joinMsgR).1
  let s3 := (handleMessage none s2 2 joinMsgR).1
  (handleMessage none s3 2 (JVal.obj [("type", JVal.str "leave")])).1

/-- Two-client state for C1's failing input: a and b both in room r. -/
def c1State : SState :=
  let s0 := handleConnect (handleConnect ⟨[], []⟩ "a") "b"
  let s1 := (handleMessage none s0 0 joinMsgR).1
  (handleMessage none s1 1 joinMsgR).1

/-- Trace for C5's failing input: c1 joins room r as its sole member, then
sends leave — the room is deleted but c1's recorded `roomId` stays "r". -/
def c5State : SState :=
  let s0 := handleConnect ⟨[], []⟩ "c1"
  let s1 := (handleMessage none s0 0 joinMsgR).1
  (handleMessage none s1 0 (JVal.obj [("type", JVal.str "leave")])).1

/-- A bridge pair bound to a first backend (socket identity 0). -/
def boundPair : PairState :=
  ⟨Link.bound ⟨some (JVal.str "h1"), some (JVal.num 7000), 0⟩, false, []⟩

/-- A second configuration message naming a different backend. -/
def cfg2Msg : WsMsg :=
  WsMsg.json "cfg2" (JVal.obj [("type", JVal.str "config"),
    ("unityHost", JVal.str "h2"), ("unityPort", JVal.num 8000)])

/-- The identity of the backend socket a pair is bound to, if any. -/
def linkSockId : Link → Option Nat
  | .bound b => some b.sockId
  | .unbound => none

/-! ### Theorems -/

/-- C1: the claim states that a delivered offer/answer/candidate payload
always carries `from = senderConnId`, overriding any caller-supplied value.
The source builds the delivered payload as `{ from: senderId, ...payload }`
(server.js line 82/86), where the spread is applied *after* the explicit
`from`, so a caller-supplied `from` overrides the sender id instead of
being overridden.  Failing input: clients a and b are in room r and a sends
`{type:"offer", sdp:"X", from:"evil"}`; the payload delivered to b carries
`from = "evil"`, not `from = "a"`. -/
theorem c1_from_spoofable :
    (handleMessage none c1State 0 (JVal.obj [("type", JVal.str "offer"),
      ("sdp", JVal.str "X"), ("from", JVal.str "evil")])).2 =
    [⟨"b", "offer", [("from", JVal.str "evil"), ("sdp", JVal.str "X")]⟩] := rfl

/-- C4 counterexample: the round-trip law fails for every envelope, because
`sendToClient` encodes the nested object `{type, payload}` while the
message handler decodes by the flat destructuring `{type, ...payload}`:
decoding an encoded envelope wraps the original payload under a `payload`
key.  Shown at the concrete envelope `⟨"offer", {sdp:"X"}⟩`. -/
theorem c4_roundtrip_fails :
    decode (encode ⟨"offer", [("sdp", JVal.str "X")]⟩) ≠
      some ⟨"offer", [("sdp", JVal.str "X")]⟩ := fun h =>
  absurd (congrArg (Option.map (fun e => e.payload.map Prod.fst)) h)
    (by decide)

/-- C4 amended: for every envelope with a non-empty type, decoding the
encoded bytes yields an envelope with the same type whose payload is the
original payload wrapped as the single field `{payload: e.payload}`. -/
theorem c4_roundtrip_wraps_payload (e : Envelope) (h : e.etype ≠ "") :
    decode (encode e) = some ⟨e.etype, [("payload", JVal.obj e.payload)]⟩ := by
  have h2 : (e.etype == "") = false := by simpa using h
  rw [show decode (encode e) =
      (if (e.etype == "") = true then none
       else some (Envelope.mk e.etype (eraseField (encode e) "type"))) from rfl,
    h2]
  rw [if_neg (by simp)]
  rfl

/-- C4 witness for the amended theorem, at the envelope `⟨"offer", {sdp:"X"}⟩`. -/
theorem c4_roundtrip_wraps_payload_witness :
    decode (encode ⟨"offer", [("sdp", JVal.str "X")]⟩) =
      some ⟨"offer", [("payload", JVal.obj [("sdp", JVal.str "X")])]⟩ :=
  c4_roundtrip_wraps_payload ⟨"offer", [("sdp", JVal.str "X")]⟩ (by decide)

/-- C5: the claim states that a leave/cleanup naming a session absent from
the registry is a benign no-op, both on an explicit leave and on transport
close.  In the source, `cleanupClient` calls
`rooms.get(roomToLeave).delete(socketId)` without checking
`rooms.has(roomToLeave)`; when the connection's recorded room was already
deleted, `rooms.get` is `undefined` and a `TypeError` is raised.  In the
`close` handler this exception is uncaught (fatal).  Failing trace: c1
joins room r as sole member, then leaves (room deleted, recorded `roomId`
left at "r"), then its transport closes. -/
theorem c5_close_after_leave_crashes :
    c5State.clients = [⟨true, "c1", some "r"⟩] ∧ c5State.rooms = [] ∧
    cleanupClient c5State "c1" (some "r") = none ∧
    handleClose c5State 0 = none :=
  ⟨rfl, rfl, rfl, rfl⟩

/-- C8 counterexample: the Unbound→Bound transition is not terminal.  A
pair bound to backend socket 0 receives a second configuration message and
ends bound to a different, freshly created backend socket 1. -/
theorem c8_config_rebinds :
    (cjsStep boundPair (.wsMessage cfg2Msg 1)).map
      (fun p => linkSockId p.1.link) = some (some 1) ∧
    linkSockId boundPair.link = some 0 :=
  ⟨rfl, rfl⟩

/-- C8 amended: every configuration message (re)binds the pair to the
newly specified backend connection — binding is not terminal — while every
non-configuration message leaves the binding unchanged (a JSON `null`
message kills the handler before reaching the binding logic). -/
theorem c8_binding_evolution (st : PairState) (m : WsMsg) (fresh : Nat) :
    (cjsStep st (.wsMessage m fresh)).map (fun p => p.1.link) =
      if isConfigMsg m then some (Link.bound ⟨msgHost m, msgPort m, fresh⟩)
      else if isNullJson m then none
      else some st.link := by
  cases m with
  | nonJson raw => cases hl : st.link <;> simp [cjsStep, isConfigMsg, isNullJson, hl]
  | json raw v =>
    cases v with
    | null => simp [cjsStep, isConfigMsg, isNullJson, typeIsConfig]
    | bool b =>
      cases hl : st.link <;>
        simp [cjsStep, isConfigMsg, isNullJson, typeIsConfig, hl]
    | num n =>
      cases hl : st.link <;>
        simp [cjsStep, isConfigMsg, isNullJson, typeIsConfig, hl]
    | str s =>
      cases hl : st.link <;>
        simp [cjsStep, isConfigMsg, isNullJson, typeIsConfig, hl]
    | arr xs =>
      cases hl : st.link <;>
        simp [cjsStep, isConfigMsg, isNullJson, typeIsConfig, hl]
    | obj fs =>
      by_cases hc : typeIsConfig (JVal.obj fs) = true
      · simp [cjsStep, isConfigMsg, isNullJson, hc]
      · cases hl : st.link <;>
          simp [cjsStep, isConfigMsg, isNullJson, hl, hc]

/-- C9 counterexample: in the hardcoded-host bridge variant, a backend
stream failure (error followed by close) tears the pair down but sends the
message-oriented peer no `status` envelope at all, contradicting the
claim. -/
theorem c9_hardcoded_no_status :
    runEvents hardcodedStep boundPair [.backendError, .backendClose] =
      some ({ boundPair with wsClosed := true }, [.closeWs, .closeWs]) ∧
    ∀ s, BOut.sendStatus s ∉ ([.closeWs, .closeWs] : List BOut) :=
  ⟨rfl, fun s => by simp⟩

/-- C9 amended: when the backend stream of a Bound pair fails (error event
followed by the close event Node guarantees), the configurable variant
(server.cjs) sends the peer a `status` envelope reporting the failure and
then closes the message-oriented connection, while the hardcoded-host
variant closes the message-oriented connection without any status
envelope. -/
theorem c9_failure_reactions (st : PairState) (b : Binding)
    (_hb : st.link = Link.bound b) :
    runEvents cjsStep st [.backendError, .backendClose] =
      some ({ st with wsClosed := true },
        [.sendStatus "Unity connection failed", .closeWs]) ∧
    runEvents hardcodedStep st [.backendError, .backendClose] =
      some ({ st with wsClosed := true }, [.closeWs, .closeWs]) :=
  ⟨rfl, rfl⟩

/-- C9 witness for the amended theorem, at a concrete bound pair. -/
theorem c9_failure_reactions_witness :
    runEvents cjsStep boundPair [.backendError, .backendClose] =
      some ({ boundPair with wsClosed := true },
        [.sendStatus "Unity connection failed", .closeWs]) ∧
    runEvents hardcodedStep boundPair [.backendError, .backendClose] =
      some ({ boundPair with wsClosed := true }, [.closeWs, .closeWs]) :=
  c9_failure_reactions boundPair
    ⟨some (JVal.str "h1"), some (JVal.num 7000), 0⟩ rfl

/-- C10 counterexample: an Unbound pair that receives the valid-JSON text
`null` is not a silent no-op: `parsed.type` on `null` raises an uncaught
`TypeError` in the message handler (modelled as `none`), so the claim's
"silently discarded" fails at this input. -/
theorem c10_null_message_crashes :
    cjsStep ⟨Link.unbound, false, []⟩ (.wsMessage (.json "null" JVal.null) 0)
      = none ∧
    cjsStep ⟨Link.unbound, false, []⟩ (.wsMessage (.json "null" JVal.null) 0)
      ≠ some (⟨Link.unbound, false, []⟩, []) :=
  ⟨rfl, fun h => Option.noConfusion h⟩

/-- C10 amended: in the Unbound state, every inbound message other than a
configuration message and other than the JSON text `null` is silently
discarded: nothing is forwarded or buffered, no envelope is sent, and the
pair state is unchanged (still Unbound). -/
theorem c10_unbound_silent_discard (st : PairState) (m : WsMsg) (fresh : Nat)
    (hU : st.link = Link.unbound) (hC : isConfigMsg m = false)
    (hN : isNullJson m = false) :
    cjsStep st (.wsMessage m fresh) = some (st, []) := by
  cases m with
  | nonJson raw => simp [cjsStep, hU]
  | json raw v =>
    cases v with
    | null => simp [isNullJson] at hN
    | bool b => simp [isConfigMsg, typeIsConfig] at hC; simp [cjsStep, typeIsConfig, hU]
    | num n => simp [isConfigMsg, typeIsConfig] at hC; simp [cjsStep, typeIsConfig, hU]
    | str s => simp [isConfigMsg, typeIsConfig] at hC; simp [cjsStep, typeIsConfig, hU]
    | arr xs => simp [isConfigMsg, typeIsConfig] at hC; simp [cjsStep, typeIsConfig, hU]
    | obj fs =>
      simp [isConfigMsg] at hC
      simp [cjsStep, hC, hU]

/-- C10 witness for the amended theorem: a non-JSON text on a fresh
unbound pair is discarded with no outputs. -/
theorem c10_unbound_silent_discard_witness :
    cjsStep ⟨Link.unbound, false, []⟩ (.wsMessage (.nonJson "hello") 0) =
      some (⟨Link.unbound, false, []⟩, []) :=
  c10_unbound_silent_discard ⟨Link.unbound, false, []⟩ (.nonJson "hello") 0
    rfl rfl rfl

/-- Helper: filtering out the added member gives the pre-add set filtered
the same way (`Set.add` appends only when absent). -/
theorem addMember_filter_ne (ms : List String) (c : String) :
    (addMember ms c).filter (fun m => m != c) = ms.filter (fun m => m != c) := by
  unfold addMember
  split
  · rfl
  · rw [List.filter_append]
    simp

/-- C6: immediately after a successful join (roomId present and non-empty,
secret accepted, cleanup of the previous room did not throw, joining
socket open), the `joined` envelope sent to the joining connection carries
`participants` equal to the target room's member set as it stood the
instant before the new member was added, minus the joining connection
itself.  `st1` is the registry state right after leaving the previous room
and right before the add; the middle deliveries `ds2` are the
`peer-joined` broadcast. -/
theorem c6_participants_snapshot (cfg : Option String) (st : SState) (i : Nat)
    (ci : Conn) (payload : Obj) (r : String) (st1 : SState)
    (ds1 : List Delivery)
    (hroom : getField payload "roomId" = some (JVal.str r)) (hr : r ≠ "")
    (hsec : secretOk cfg payload = true)
    (hclean : cleanupClient st ci.id ci.roomId = some (st1, ds1))
    (hopen : ci.wsOpen = true) :
    ∃ ds2, (joinCase cfg st i ci payload).2 =
      ds1 ++ ds2 ++ [⟨ci.id, "joined",
        [("roomId", JVal.str r),
         ("participants", JVal.arr
           ((((findRoom st1.rooms r).getD []).filter
              (fun m => m != ci.id)).map JVal.str))]⟩] := by
  have hr2 : (r == "") = false := by simpa using hr
  refine ⟨broadcastD
    ⟨st1.clients.set i ⟨ci.wsOpen, ci.id, some r⟩,
     setRoom st1.rooms r (addMember ((findRoom st1.rooms r).getD []) ci.id)⟩
    ci.id r "peer-joined" [("socketId", JVal.str ci.id)] none, ?_⟩
  simp only [joinCase, hroom, hr2, hsec, hclean, hopen, Bool.not_true,
    Bool.false_eq_true, if_false, if_true, ite_true, ite_false]
  rw [addMember_filter_ne]

/-- C6 witness: a single fresh connection joins room r in the empty
registry; the participants snapshot is the empty list. -/
theorem c6_participants_snapshot_witness :
    ∃ ds2, (joinCase none ⟨[⟨true, "a", none⟩], []⟩ 0 ⟨true, "a", none⟩
        [("roomId", JVal.str "r")]).2 =
      [] ++ ds2 ++ [⟨"a", "joined",
        [("roomId", JVal.str "r"),
         ("participants", JVal.arr
           ((((findRoom (⟨[⟨true, "a", none⟩], []⟩ : SState).rooms "r").getD
              []).filter (fun m => m != "a")).map JVal.str))]⟩] :=
  c6_participants_snapshot none ⟨[⟨true, "a", none⟩], []⟩ 0 ⟨true, "a", none⟩
    [("roomId", JVal.str "r")] "r" ⟨[⟨true, "a", none⟩], []⟩ []
    rfl (by decide) rfl rfl rfl

/-- C2 counterexample: after a, b, c join room r and c leaves, c's recorded
`roomId` is left stale, and a directed offer from a with
`toSocketId = "c"` is delivered to c even though c is not a member of the
session (the member set is `["a","b"]`). -/
theorem c2_delivery_to_departed :
    ((handleMessage none c2State 0 (JVal.obj [("type", JVal.str "offer"),
        ("sdp", JVal.str "X"), ("toSocketId", JVal.str "c")])).2.map
      Delivery.recipient = ["c"]) ∧
    findRoom c2State.rooms "r" = some ["a", "b"] ∧
    "c" ∉ (["a", "b"] : List String) :=
  ⟨rfl, rfl, by decide⟩

/-- C2 amended: a directed offer/answer/candidate with a (truthy) target
identifier X is never delivered to any connection other than X, and it is
delivered to X if and only if the sender's session exists in the registry
and X has an open connection whose *recorded* current room equals the
sender's session — which, because a leave never resets the recorded room,
can differ from membership in the session's member set. -/
theorem c2_unicast_delivery (st : SState) (sender r ty : String) (p : Obj)
    (X : String) (hX : X ≠ "") :
    (∀ d ∈ broadcastD st sender r ty p (some (JVal.str X)), d.recipient = X) ∧
    ((∃ d ∈ broadcastD st sender r ty p (some (JVal.str X)), d.recipient = X) ↔
      ((findRoom st.rooms r).isSome ∧
        ∃ c ∈ st.clients, c.wsOpen = true ∧ c.roomId = some r ∧ c.id = X)) := by
  have hT : jsTruthy (JVal.str X) = true := by simp [jsTruthy, hX]
  cases hfr : findRoom st.rooms r with
  | none =>
    constructor
    · intro d hd
      simp only [broadcastD, hfr] at hd
      exact absurd hd (List.not_mem_nil d)
    · simp only [broadcastD, hfr]
      simp
  | some ms =>
    have hmem : ∀ d : Delivery,
        d ∈ broadcastD st sender r ty p (some (JVal.str X)) →
        ∃ c ∈ st.clients, c.wsOpen = true ∧ c.roomId = some r ∧ c.id = X ∧
          d = ⟨c.id, ty, deliveredPayload sender p⟩ := by
      intro d hd
      simp only [broadcastD, hfr] at hd
      rcases List.mem_filterMap.mp hd with ⟨c, hc, hfc⟩
      by_cases hw : (c.wsOpen && (c.roomId == some r)) = true
      · rw [if_pos hw] at hfc
        rw [hT] at hfc
        simp only [if_true] at hfc
        by_cases he : jvalEqStr (JVal.str X) c.id = true
        · rw [if_pos he] at hfc
          have hid : c.id = X := by
            have hXc : (X == c.id) = true := he
            exact (beq_iff_eq.mp hXc).symm
          have hw2 : c.wsOpen = true ∧ (c.roomId == some r) = true := by
            simpa using hw
          refine ⟨c, hc, hw2.1, ?_, hid, ?_⟩
          · exact beq_iff_eq.mp hw2.2
          · exact (Option.some.inj hfc).symm
        · rw [if_neg he] at hfc
          exact absurd hfc (by simp)
      · rw [if_neg hw] at hfc
        exact absurd hfc (by simp)
    constructor
    · intro d hd
      rcases hmem d hd with ⟨c, _, _, _, hid, hd2⟩
      rw [hd2]
      exact hid
    · constructor
      · intro hex
        rcases hex with ⟨d, hd, -⟩
        rcases hmem d hd with ⟨c, hc, hopen, hroom, hid, -⟩
        refine ⟨?_, c, hc, hopen, hroom, hid⟩
        rfl
      · rintro ⟨-, c, hc, hopen, hroom, hid⟩
        refine ⟨⟨c.id, ty, deliveredPayload sender p⟩, ?_, hid⟩
        simp only [broadcastD, hfr]
        refine List.mem_filterMap.mpr ⟨c, hc, ?_⟩
        rw [if_pos (by rw [hopen, hroom]; simp)]
        rw [hT]
        simp only [if_true]
        rw [if_pos (by simp [jvalEqStr, hid])]

/-- C2 witness for the amended theorem, at a one-client state where the
target is an open member-recorded connection. -/
theorem c2_unicast_delivery_witness :
    (∀ d ∈ broadcastD ⟨[⟨true, "b", some "r"⟩], [("r", ["b"])]⟩ "a" "r"
        "offer" [] (some (JVal.str "b")), d.recipient = "b") ∧
    ((∃ d ∈ broadcastD ⟨[⟨true, "b", some "r"⟩], [("r", ["b"])]⟩ "a" "r"
        "offer" [] (some (JVal.str "b")), d.recipient = "b") ↔
      ((findRoom (⟨[⟨true, "b", some "r"⟩], [("r", ["b"])]⟩ : SState).rooms
          "r").isSome ∧
        ∃ c ∈ (⟨[⟨true, "b", some "r"⟩], [("r", ["b"])]⟩ : SState).clients,
          c.wsOpen = true ∧ c.roomId = some "r" ∧ c.id = "b")) :=
  c2_unicast_delivery ⟨[⟨true, "b", some "r"⟩], [("r", ["b"])]⟩ "a" "r"
    "offer" [] "b" (by decide)

/-- Helper: a run of non-newline characters is absorbed into the framer's
current-segment accumulator. -/
theorem frameGo_skip (pre : List Char) (h : ∀ c ∈ pre, c ≠ '\n') :
    ∀ (cur y : List Char),
      frameGo cur (pre ++ y) = frameGo (pre.reverse ++ cur) y := by
  induction pre with
  | nil => intro cur y; simp
  | cons a pre ih =>
    intro cur y
    have ha : a ≠ '\n' := h a (List.mem_cons_self a pre)
    have h2 : ∀ c ∈ pre, c ≠ '\n' := fun c hc => h c (List.mem_cons_of_mem a hc)
    rw [List.cons_append]
    simp only [frameGo]
    rw [if_neg ha, ih h2 (a :: cur) y]
    congr 1
    simp

/-- Helper: the framer's residual buffer never contains a newline. -/
theorem frameGo_residual (x : List Char) :
    ∀ (cur : List Char), (∀ c ∈ cur, c ≠ '\n') →
      ∀ c ∈ (frameGo cur x).2, c ≠ '\n' := by
  induction x with
  | nil =>
    intro cur h c hc
    simp only [frameGo] at hc
    exact h c (List.mem_reverse.mp hc)
  | cons a x ih =>
    intro cur h c hc
    by_cases ha : a = '\n'
    · subst ha
      simp only [frameGo, if_pos rfl] at hc
      exact ih [] (by simp) c hc
    · simp only [frameGo, if_neg ha] at hc
      refine ih (a :: cur) ?_ c hc
      intro d hd
      rcases List.mem_cons.mp hd with h1 | h2
      · exact h1 ▸ ha
      · exact h d h2

/-- Helper: a newline-free buffer passes through the framer untouched. -/
theorem frameGo_no_newline (buf : List Char) (h : ∀ c ∈ buf, c ≠ '\n') :
    frameGo [] buf = ([], buf) := by
  have h1 : frameGo [] (buf ++ []) = frameGo (buf.reverse ++ []) [] :=
    frameGo_skip buf h [] []
  rw [List.append_nil, List.append_nil] at h1
  rw [h1]
  simp only [frameGo]
  rw [List.reverse_reverse]

/-- Helper: splitting the framer's input stream at any point composes:
processing `x ++ y` equals processing `x`, then `y` starting from the
residual. -/
theorem frameGo_append (x : List Char) :
    ∀ (cur y : List Char), (∀ c ∈ cur, c ≠ '\n') →
      frameGo cur (x ++ y) =
        ((frameGo cur x).1 ++ (frameGo [] ((frameGo cur x).2 ++ y)).1,
         (frameGo [] ((frameGo cur x).2 ++ y)).2) := by
  induction x with
  | nil =>
    intro cur y h
    show frameGo cur y = _
    rw [show frameGo cur [] = (([] : List (List Char)), cur.reverse) from rfl]
    rw [frameGo_skip cur.reverse (fun c hc => h c (List.mem_reverse.mp hc)) [] y]
    simp
  | cons a x ih =>
    intro cur y h
    by_cases ha : a = '\n'
    · subst ha
      rw [List.cons_append]
      simp only [frameGo, if_pos rfl]
      rw [ih [] y (by simp)]
      simp
    · rw [List.cons_append]
      simp only [frameGo]
      rw [if_neg ha, if_neg ha]
      refine ih (a :: cur) y ?_
      intro d hd
      rcases List.mem_cons.mp hd with h1 | h2
      · exact h1 ▸ ha
      · exact h d h2

/-- Helper: feeding chunks one data event at a time equals feeding their
concatenation at once, for any newline-free starting buffer. -/
theorem feedAll_chunks (chunks : List (List Char)) :
    ∀ (buf : List Char), (∀ c ∈ buf, c ≠ '\n') →
      feedAll buf chunks = feedEmit buf chunks.flatten := by
  induction chunks with
  | nil =>
    intro buf h
    simp only [feedAll, feedEmit, List.flatten_nil]
    rw [List.append_nil, frameGo_no_newline buf h]
    rfl
  | cons ch rest ih =>
    intro buf h
    have hres : ∀ c ∈ (frameGo [] (buf ++ ch)).2, c ≠ '\n' :=
      frameGo_residual (buf ++ ch) [] (by simp)
    simp only [feedAll]
    rw [ih (feedEmit buf ch).2 hres]
    simp only [List.flatten_cons, feedEmit]
    rw [← List.append_assoc]
    rw [frameGo_append (buf ++ ch) [] rest.flatten (by simp)]
    rw [List.filter_append]

/-- Helper: at the text level — after each chunk has been decoded — the
framing loop is split-independent. -/
theorem feedAll_split_text (chunks : List (List Char)) :
    feedAll [] chunks = feedEmit [] chunks.flatten :=
  feedAll_chunks chunks [] (by simp)

/-- Helper: processing byte chunks is processing their independent
decodings at the text level. -/
theorem feedAllBytes_eq (chunks : List (List Nat)) :
    ∀ buf, feedAllBytes buf chunks = feedAll buf (chunks.map utf8Decode) := by
  induction chunks with
  | nil => intro buf; rfl
  | cons ch rest ih =>
    intro buf
    simp only [feedAllBytes, List.map_cons, feedAll, feedEmitBytes]
    rw [ih]

/-- C7 counterexample: split-independence fails on the program's byte
streams, because `data.toString()` decodes every chunk independently.  The
overall bytes `C3 A9 0A` (UTF-8 for the character U+00E9 followed by a
newline) fed as one chunk yield the one-character message U+00E9; fed as
the splits `[C3]`, `[A9 0A]`, each half decodes to a U+FFFD replacement
character and the framer emits the garbled two-character message instead —
a different message sequence for the same overall content. -/
theorem c7_byte_split_garbles :
    (feedAllBytes [] [[0xC3, 0xA9, 0x0A]]).1 = [[Char.ofNat 0xE9]] ∧
    (feedAllBytes [] [[0xC3], [0xA9, 0x0A]]).1 = [[replChar, replChar]] ∧
    feedAllBytes [] [[0xC3], [0xA9, 0x0A]] ≠
      feedAllBytes [] [[0xC3, 0xA9, 0x0A]] :=
  ⟨rfl, rfl, by decide⟩

/-- C7 amended: feeding an overall byte-stream content to the Stream
Framer as a single chunk or as any sequence of chunks whose independent
`toString()` decodings concatenate to the decoding of the whole stream —
in particular any split at UTF-8 character boundaries — produces the
identical ordered sequence of complete (newline-delimited, non-blank)
messages and the identical residual buffer.  A split inside a multi-byte
UTF-8 character violates that side condition and garbles the stream to
replacement characters. -/
theorem c7_charAligned_split_independence (chunks : List (List Nat))
    (h : (chunks.map utf8Decode).flatten = utf8Decode chunks.flatten) :
    feedAllBytes [] chunks = feedEmitBytes [] chunks.flatten := by
  rw [feedAllBytes_eq, feedAll_split_text (chunks.map utf8Decode)]
  simp only [feedEmitBytes]
  rw [h]

/-- C7 witness for the amended theorem, at the character-aligned split of
the bytes of a newline-terminated one-character line. -/
theorem c7_charAligned_split_independence_witness :
    (([[0x61], [0x0A]] : List (List Nat)).map utf8Decode).flatten =
      utf8Decode ([[0x61], [0x0A]] : List (List Nat)).flatten ∧
    feedAllBytes [] [[0x61], [0x0A]] =
      feedEmitBytes [] ([[0x61], [0x0A]] : List (List Nat)).flatten :=
  ⟨by decide, c7_charAligned_split_independence [[0x61], [0x0A]] (by decide)⟩

/-- Helper: membership is preserved by `List.set` at an index holding a
connection with a different id. -/
theorem conn_mem_set_of_ne : ∀ (l : List Conn) (i : Nat) (ci c' c : Conn),
    l.get? i = some ci → c ∈ l → c.id ≠ ci.id → c ∈ l.set i c' := by
  intro l
  induction l with
  | nil => intro i ci c' c hi hc _; cases hc
  | cons a l ih =>
    intro i ci c' c hi hc hne
    cases i with
    | zero =>
      have ha : a = ci := Option.some.inj hi
      rcases List.mem_cons.mp hc with h1 | h2
      · exact absurd (by rw [h1, ha]) hne
      · exact List.mem_cons_of_mem _ h2
    | succ n =>
      rcases List.mem_cons.mp hc with h1 | h2
      · exact h1 ▸ List.mem_cons_self a _
      · exact List.mem_cons_of_mem _ (ih n ci c' c hi h2 hne)

/-- Helper: the connection written by `List.set` at a valid index is a
member of the result. -/
theorem conn_self_mem_set : ∀ (l : List Conn) (i : Nat) (ci c' : Conn),
    l.get? i = some ci → c' ∈ l.set i c' := by
  intro l
  induction l with
  | nil => intro i ci c' hi; exact absurd hi (by cases i <;> simp)
  | cons a l ih =>
    intro i ci c' hi
    cases i with
    | zero => exact List.mem_cons_self _ _
    | succ n => exact List.mem_cons_of_mem _ (ih n ci c' hi)

/-- Helper: `List.set` with a connection of the same id preserves the list
of ids. -/
theorem conn_map_id_set : ∀ (l : List Conn) (i : Nat) (ci c' : Conn),
    l.get? i = some ci → c'.id = ci.id →
    (l.set i c').map Conn.id = l.map Conn.id := by
  intro l
  induction l with
  | nil => intro i ci c' _ _; rfl
  | cons a l ih =>
    intro i ci c' hi hid
    cases i with
    | zero =>
      have ha : a = ci := Option.some.inj hi
      simp only [List.set, List.map_cons]
      rw [hid, ha]
    | succ n =>
      simp only [List.set, List.map_cons]
      rw [ih n ci c' hi hid]

/-- Helper: membership survives `List.eraseIdx` at an index holding a
connection with a different id. -/
theorem conn_mem_eraseIdx_of_ne : ∀ (l : List Conn) (i : Nat) (ci c : Conn),
    l.get? i = some ci → c ∈ l → c.id ≠ ci.id → c ∈ l.eraseIdx i := by
  intro l
  induction l with
  | nil => intro i ci c _ hc _; cases hc
  | cons a l ih =>
    intro i ci c hi hc hne
    cases i with
    | zero =>
      have ha : a = ci := Option.some.inj hi
      rcases List.mem_cons.mp hc with h1 | h2
      · exact absurd (by rw [h1, ha]) hne
      · exact h2
    | succ n =>
      rcases List.mem_cons.mp hc with h1 | h2
      · exact h1 ▸ List.mem_cons_self a _
      · exact List.mem_cons_of_mem _ (ih n ci c hi h2 hne)

/-- Helper: updating a room's member set does not change the key list. -/
theorem updateRoom_map_fst : ∀ (rooms : List (String × List String))
    (r : String) (ms : List String),
    (updateRoom rooms r ms).map Prod.fst = rooms.map Prod.fst := by
  intro rooms r ms
  induction rooms with
  | nil => rfl
  | cons p rooms ih =>
    have hhead : (if (p.1 == r) = true then (r, ms) else p).1 = p.1 := by
      by_cases hp : (p.1 == r) = true
      · rw [if_pos hp]
        exact (beq_iff_eq.mp hp).symm
      · rw [if_neg hp]
    simp only [updateRoom, List.map_cons] at ih ⊢
    rw [hhead, ih]

/-- Helper: an entry of the updated room map is either an untouched entry
with a different key, or the written entry. -/
theorem mem_updateRoom {rooms : List (String × List String)} {r : String}
    {ms : List String} {p : String × List String}
    (hp : p ∈ updateRoom rooms r ms) :
    (p ∈ rooms ∧ p.1 ≠ r) ∨ p = (r, ms) := by
  simp only [updateRoom, List.mem_map] at hp
  rcases hp with ⟨q, hq, hgq⟩
  by_cases h : (q.1 == r) = true
  · right
    rw [if_pos h] at hgq
    exact hgq.symm
  · left
    rw [if_neg h] at hgq
    subst hgq
    exact ⟨hq, fun hr => h (beq_iff_eq.mpr hr)⟩

/-- Helper: an entry of the room map after a deletion is an entry of the
original with a different key. -/
theorem mem_eraseRoom {rooms : List (String × List String)} {r : String}
    {p : String × List String} (hp : p ∈ eraseRoom rooms r) :
    p ∈ rooms ∧ p.1 ≠ r := by
  have h := List.mem_filter.mp hp
  exact ⟨h.1, by simpa using h.2⟩

/-- Helper: a successful room lookup is a membership. -/
theorem findRoom_mem {rooms : List (String × List String)} {r : String}
    {ms : List String} (h : findRoom rooms r = some ms) : (r, ms) ∈ rooms := by
  simp only [findRoom, Option.map_eq_some'] at h
  rcases h with ⟨q, hq, hq2⟩
  have hqm := List.mem_of_find?_eq_some hq
  have hqr := List.find?_some hq
  simp only at hqr
  have hqe : q = (r, ms) := by
    cases q with
    | mk q1 q2 =>
      simp only at hq2
      rw [Prod.mk.injEq]
      exact ⟨beq_iff_eq.mp hqr, hq2⟩
  exact hqe ▸ hqm

/-- Helper: a failed room lookup means the key has no entry. -/
theorem findRoom_none {rooms : List (String × List String)} {r : String}
    (h : findRoom rooms r = none) : ∀ ms, (r, ms) ∉ rooms := by
  intro ms hmem
  simp only [findRoom, Option.map_eq_none'] at h
  have := List.find?_eq_none.mp h _ hmem
  simp at this

/-- Helper: a failed room lookup means the key is absent from the key
list. -/
theorem findRoom_none_key {rooms : List (String × List String)} {r : String}
    (h : findRoom rooms r = none) : r ∉ rooms.map Prod.fst := by
  intro hr
  rcases List.mem_map.mp hr with ⟨p, hp, hp1⟩
  exact findRoom_none h p.2 (by rwa [show (r, p.2) = p from by rw [← hp1]])

/-- Helper: a failed fallback scan means no room contains the socket. -/
theorem fbRoom_none {st : SState} {cid : String} (h : fbRoom st cid = none) :
    ∀ p ∈ st.rooms, cid ∉ p.2 := by
  intro p hp hc
  simp only [fbRoom, Option.map_eq_none'] at h
  have := List.find?_eq_none.mp h p hp
  simp at this
  exact this hc

/-- Helper: a successful fallback scan returns the key of a room
containing the socket. -/
theorem fbRoom_some {st : SState} {cid r : String} (h : fbRoom st cid = some r) :
    ∃ ms0, (r, ms0) ∈ st.rooms ∧ cid ∈ ms0 := by
  simp only [fbRoom, Option.map_eq_some'] at h
  rcases h with ⟨q, hq, hq1⟩
  refine ⟨q.2, ?_, ?_⟩
  · rw [show (r, q.2) = q from by rw [← hq1]]
    exact List.mem_of_find?_eq_some hq
  · have := List.find?_some hq
    simpa using this

/-- Helper: `Set.add` never yields an empty set. -/
theorem addMember_ne_nil (ms : List String) (c : String) :
    addMember ms c ≠ [] := by
  unfold addMember
  split
  · next hmem =>
    intro h
    subst h
    exact absurd hmem (List.not_mem_nil c)
  · simp

/-- Helper: membership in `Set.add`. -/
theorem mem_addMember {ms : List String} {c id : String} :
    id ∈ addMember ms c ↔ id ∈ ms ∨ id = c := by
  unfold addMember
  split
  · next hmem =>
    constructor
    · exact Or.inl
    · rintro (h | h)
      · exact h
      · exact h ▸ hmem
  · simp

/-- Helper: `Set.add` preserves distinctness. -/
theorem addMember_nodup {ms : List String} {c : String} (h : ms.Nodup) :
    (addMember ms c).Nodup := by
  unfold addMember
  split
  · exact h
  · next hnm =>
    refine List.Nodup.append h (List.nodup_singleton c) ?_
    intro x hx hc
    rw [List.mem_singleton] at hc
    exact hnm (hc ▸ hx)

/-- Helper: an entry of `rooms.set(r, ms)` is either an untouched entry
with a different key, or the written entry. -/
theorem mem_setRoom {rooms : List (String × List String)} {r : String}
    {ms : List String} {p : String × List String}
    (hp : p ∈ setRoom rooms r ms) :
    (p ∈ rooms ∧ p.1 ≠ r) ∨ p = (r, ms) := by
  unfold setRoom at hp
  split at hp
  · exact mem_updateRoom hp
  · next hnone =>
    rcases List.mem_append.mp hp with h | h
    · left
      refine ⟨h, ?_⟩
      intro hr
      have hfn : findRoom rooms r = none := by
        cases hf : findRoom rooms r with
        | none => rfl
        | some _ => rw [hf] at hnone; simp at hnone
      exact findRoom_none hfn p.2 (by rwa [show (r, p.2) = p from by rw [← hr]])
    · right
      simpa using h

/-- Helper: `cleanupClient`'s mutation never touches the clients map. -/
theorem cleanupApply_clients (st : SState) (cid r : String)
    (ms : List String) : (cleanupApply st cid r ms).1.clients = st.clients := by
  simp only [cleanupApply]
  split <;> rfl

/-- Helper: the room map produced by `cleanupClient`'s mutation. -/
theorem cleanupApply_rooms (st : SState) (cid r : String) (ms : List String) :
    (cleanupApply st cid r ms).1.rooms =
      if (ms.erase cid).isEmpty then
        eraseRoom (updateRoom st.rooms r (ms.erase cid)) r
      else updateRoom st.rooms r (ms.erase cid) := by
  simp only [cleanupApply]
  split <;> rfl

/-- Helper: an entry of the room map after `cleanupClient`'s mutation is
either an untouched entry with a different key, or the reduced (and then
non-empty) member set of the left room. -/
theorem cleanupApply_rooms_mem (st : SState) (cid r : String)
    (ms : List String) (p : String × List String)
    (hp : p ∈ (cleanupApply st cid r ms).1.rooms) :
    (p ∈ st.rooms ∧ p.1 ≠ r) ∨
      (p = (r, ms.erase cid) ∧ ms.erase cid ≠ []) := by
  rw [cleanupApply_rooms] at hp
  by_cases he : (ms.erase cid).isEmpty = true
  · rw [if_pos he] at hp
    have h1 := mem_eraseRoom hp
    rcases mem_updateRoom h1.1 with h2 | h2
    · exact Or.inl h2
    · exact absurd (by rw [h2]) h1.2
  · rw [if_neg he] at hp
    rcases mem_updateRoom hp with h2 | h2
    · exact Or.inl h2
    · refine Or.inr ⟨h2, ?_⟩
      intro hnil
      exact he (by rw [hnil]; rfl)

/-- Helper: a successful `cleanupClient` preserves the registry invariant,
leaves the clients map untouched, and removes the socket from every member
set — provided the socket is only ever a member of the room its record
names (which the invariant guarantees at every call site). -/
theorem cleanupClient_inv (st : SState) (cid : String) (rid : Option String)
    (hInv : RegInv st)
    (honly : ∀ r ms, (r, ms) ∈ st.rooms → cid ∈ ms → rid = some r)
    (st1 : SState) (ds : List Delivery)
    (h : cleanupClient st cid rid = some (st1, ds)) :
    RegInv st1 ∧ st1.clients = st.clients ∧
    (∀ r ms, (r, ms) ∈ st1.rooms → cid ∉ ms) := by
  unfold cleanupClient at h
  split at h
  · rename_i hrtl
    have h2 := Option.some.inj h
    have h3 : st = st1 := congrArg Prod.fst h2
    subst h3
    refine ⟨hInv, rfl, ?_⟩
    intro r ms hmem hc
    have hr := honly r ms hmem hc
    rw [hr] at hrtl
    simp only [roomToLeave] at hrtl
    by_cases hre : (r == "") = true
    · rw [if_pos hre] at hrtl
      exact fbRoom_none hrtl (r, ms) hmem hc
    · rw [if_neg hre] at hrtl
      exact Option.noConfusion hrtl
  · rename_i r hrtl
    split at h
    · exact Option.noConfusion h
    · rename_i ms hfr
      have h2 := Option.some.inj h
      have h3 : (cleanupApply st cid r ms).1 = st1 := congrArg Prod.fst h2
      subst h3
      have hmemr : (r, ms) ∈ st.rooms := findRoom_mem hfr
      have hms_nodup : ms.Nodup := hInv.memNodup (r, ms) hmemr
      have huniq : ∀ r' ms', (r', ms') ∈ st.rooms → cid ∈ ms' → r' = r := by
        intro r' ms' hm' hc'
        have hr' := honly r' ms' hm' hc'
        rw [hr'] at hrtl
        simp only [roomToLeave] at hrtl
        by_cases hre : (r' == "") = true
        · rw [if_pos hre] at hrtl
          rcases fbRoom_some hrtl with ⟨ms0, hm0, hc0⟩
          have h0 := honly r ms0 hm0 hc0
          rw [hr'] at h0
          exact Option.some.inj h0
        · rw [if_neg hre] at hrtl
          exact Option.some.inj hrtl
      have hcl := cleanupApply_clients st cid r ms
      have hchar := cleanupApply_rooms_mem st cid r ms
      refine ⟨⟨?_, ?_, ?_, ?_, ?_⟩, hcl, ?_⟩
      · -- keysNodup
        rw [cleanupApply_rooms]
        by_cases he : (ms.erase cid).isEmpty = true
        · rw [if_pos he]
          have hsub : List.Sublist
              ((eraseRoom (updateRoom st.rooms r (ms.erase cid)) r).map Prod.fst)
              ((updateRoom st.rooms r (ms.erase cid)).map Prod.fst) :=
            List.Sublist.map Prod.fst (List.filter_sublist _)
          have hnd : ((updateRoom st.rooms r (ms.erase cid)).map Prod.fst).Nodup := by
            rw [updateRoom_map_fst]
            exact hInv.keysNodup
          exact List.Nodup.sublist hsub hnd
        · rw [if_neg he, updateRoom_map_fst]
          exact hInv.keysNodup
      · -- nonempty
        intro p hp
        rcases hchar p hp with h4 | h4
        · exact hInv.nonempty p h4.1
        · rw [h4.1]
          exact h4.2
      · -- memNodup
        intro p hp
        rcases hchar p hp with h4 | h4
        · exact hInv.memNodup p h4.1
        · rw [h4.1]
          exact List.Nodup.erase cid hms_nodup
      · -- idsNodup
        rw [hcl]
        exact hInv.idsNodup
      · -- memberRecorded
        intro r' ms' id hmem hid
        rcases hchar (r', ms') hmem with h4 | h4
        · rcases hInv.memberRecorded r' ms' id h4.1 hid with ⟨c, hc, hcid, hcr⟩
          exact ⟨c, by rw [hcl]; exact hc, hcid, hcr⟩
        · have hpe := Prod.mk.injEq r' ms' r (ms.erase cid) ▸ h4.1
          have hr' : r' = r := (Prod.ext_iff.mp h4.1).1
          have hms' : ms' = ms.erase cid := (Prod.ext_iff.mp h4.1).2
          have hid2 : id ∈ ms := List.mem_of_mem_erase (hms' ▸ hid)
          rcases hInv.memberRecorded r ms id hmemr hid2 with ⟨c, hc, hcid, hcr⟩
          exact ⟨c, by rw [hcl]; exact hc, hcid, by rw [hr']; exact hcr⟩
      · -- the socket is gone from every member set
        intro r' ms' hmem hc
        rcases hchar (r', ms') hmem with h4 | h4
        · exact h4.2 (huniq r' ms' h4.1 hc)
        · have hms' : ms' = ms.erase cid := (Prod.ext_iff.mp h4.1).2
          rw [hms'] at hc
          exact ((List.Nodup.mem_erase_iff hms_nodup).mp hc).1 rfl

/-- Helper: under the invariant, a connection is only ever a member of the
room its record names. -/
theorem recorded_only (st : SState) (i : Nat) (ci : Conn)
    (hInv : RegInv st) (hci : st.clients.get? i = some ci) :
    ∀ r ms, (r, ms) ∈ st.rooms → ci.id ∈ ms → ci.roomId = some r := by
  intro r ms hmem hin
  rcases hInv.memberRecorded r ms ci.id hmem hin with ⟨c, hc, hcid, hcr⟩
  have hcimem : ci ∈ st.clients := List.get?_mem hci
  have hceq : c = ci :=
    List.inj_on_of_nodup_map hInv.idsNodup hc hcimem (by rw [hcid])
  rw [← hceq]
  exact hcr

/-- Helper: the join case preserves the registry invariant. -/
theorem joinCase_inv (cfg : Option String) (st : SState) (i : Nat) (ci : Conn)
    (payload : Obj) (hInv : RegInv st) (hci : st.clients.get? i = some ci) :
    RegInv (joinCase cfg st i ci payload).1 := by
  unfold joinCase
  split
  · rename_i r _
    by_cases hre : (r == "") = true
    · rw [if_pos hre]
      exact hInv
    · rw [if_neg hre]
      by_cases hsec : (!secretOk cfg payload) = true
      · rw [if_pos hsec]
        exact hInv
      · rw [if_neg hsec]
        cases hcl : cleanupClient st ci.id ci.roomId with
        | none => exact hInv
        | some pr =>
          obtain ⟨st1, ds1⟩ := pr
          obtain ⟨hInv1, hcl_cl, hnot⟩ :=
            cleanupClient_inv st ci.id ci.roomId hInv
              (recorded_only st i ci hInv hci) st1 ds1 hcl
          have hci1 : st1.clients.get? i = some ci := by
            rw [hcl_cl]
            exact hci
          show RegInv (SState.mk
            (st1.clients.set i ⟨ci.wsOpen, ci.id, some r⟩)
            (setRoom st1.rooms r
              (addMember ((findRoom st1.rooms r).getD []) ci.id)))
          refine ⟨?_, ?_, ?_, ?_, ?_⟩
          · -- keysNodup
            unfold setRoom
            split
            · rw [updateRoom_map_fst]
              exact hInv1.keysNodup
            · rename_i hns
              have hfn : findRoom st1.rooms r = none := by
                cases hf : findRoom st1.rooms r with
                | none => rfl
                | some _ => rw [hf] at hns; simp at hns
              rw [List.map_append]
              refine List.Nodup.append hInv1.keysNodup
                (List.nodup_singleton r) ?_
              intro x hx hx2
              have hxr : x = r := by simpa using hx2
              exact findRoom_none_key hfn (hxr ▸ hx)
          · -- nonempty
            intro p hp
            rcases mem_setRoom hp with h4 | h4
            · exact hInv1.nonempty p h4.1
            · rw [h4]
              exact addMember_ne_nil _ _
          · -- memNodup
            intro p hp
            rcases mem_setRoom hp with h4 | h4
            · exact hInv1.memNodup p h4.1
            · rw [h4]
              refine addMember_nodup ?_
              cases hf : findRoom st1.rooms r with
              | none => exact List.nodup_nil
              | some pms => exact hInv1.memNodup (r, pms) (findRoom_mem hf)
          · -- idsNodup
            rw [conn_map_id_set st1.clients i ci ⟨ci.wsOpen, ci.id, some r⟩
              hci1 rfl]
            exact hInv1.idsNodup
          · -- memberRecorded
            intro r' ms' id hmem hid
            rcases mem_setRoom hmem with h4 | h4
            · have hidne : id ≠ ci.id := fun he => hnot r' ms' h4.1 (he ▸ hid)
              rcases hInv1.memberRecorded r' ms' id h4.1 hid with
                ⟨c, hc, hcid, hcr⟩
              exact ⟨c, conn_mem_set_of_ne st1.clients i ci _ c hci1 hc
                (by rw [hcid]; exact hidne), hcid, hcr⟩
            · have hr' : r' = r := (Prod.ext_iff.mp h4).1
              have hms' : ms' =
                  addMember ((findRoom st1.rooms r).getD []) ci.id :=
                (Prod.ext_iff.mp h4).2
              rw [hms'] at hid
              rcases mem_addMember.mp hid with hpre | hidc
              · cases hf : findRoom st1.rooms r with
                | none =>
                  rw [hf] at hpre
                  exact absurd hpre (List.not_mem_nil id)
                | some pms =>
                  rw [hf] at hpre
                  have hpm : (r, pms) ∈ st1.rooms := findRoom_mem hf
                  have hidne : id ≠ ci.id :=
                    fun he => hnot r pms hpm (he ▸ hpre)
                  rcases hInv1.memberRecorded r pms id hpm hpre with
                    ⟨c, hc, hcid, hcr⟩
                  exact ⟨c, conn_mem_set_of_ne st1.clients i ci _ c hci1 hc
                    (by rw [hcid]; exact hidne), hcid,
                    by rw [hr']; exact hcr⟩
              · refine ⟨⟨ci.wsOpen, ci.id, some r⟩,
                  conn_self_mem_set st1.clients i ci _ hci1, hidc.symm, ?_⟩
                rw [hr']
  · rename_i v _ _
    split
    · exact hInv
    · exact hInv
  · exact hInv

/-- Helper: the relay case never mutates the registry. -/
theorem relayCase_state (st : SState) (ci : Conn) (ev : String)
    (payload : Obj) : (relayCase st ci ev payload).1 = st := by
  unfold relayCase
  split
  · rfl
  · split
    · rfl
    · dsimp only
      split
      · rfl
      · rfl

/-- Helper: the leave case preserves the registry invariant. -/
theorem leaveCase_inv (st : SState) (i : Nat) (ci : Conn) (hInv : RegInv st)
    (hci : st.clients.get? i = some ci) : RegInv (leaveCase st ci).1 := by
  unfold leaveCase
  cases hcl : cleanupClient st ci.id ci.roomId with
  | none => exact hInv
  | some pr =>
    obtain ⟨st1, ds1⟩ := pr
    exact (cleanupClient_inv st ci.id ci.roomId hInv
      (recorded_only st i ci hInv hci) st1 ds1 hcl).1

/-- Helper: the message handler preserves the registry invariant. -/
theorem handleMessage_inv (cfg : Option String) (st : SState) (i : Nat)
    (m : JVal) (hInv : RegInv st) : RegInv (handleMessage cfg st i m).1 := by
  unfold handleMessage
  split
  · exact hInv
  · rename_i ci hci
    split
    · rename_i fields
      split
      · rename_i tv _
        split
        · split
          · rename_i t
            split
            · exact joinCase_inv cfg st i ci _ hInv hci
            · split
              · rw [relayCase_state]
                exact hInv
              · split
                · exact leaveCase_inv st i ci hInv hci
                · exact hInv
          · exact hInv
        · exact hInv
      · exact hInv
    · exact hInv

/-- Helper: the close handler preserves the registry invariant. -/
theorem handleClose_inv (st : SState) (i : Nat) (st2 : SState)
    (ds : List Delivery) (hInv : RegInv st)
    (h : handleClose st i = some (st2, ds)) : RegInv st2 := by
  unfold handleClose at h
  split at h
  · have h3 : st = st2 := congrArg Prod.fst (Option.some.inj h)
    exact h3 ▸ hInv
  · rename_i ci hci
    split at h
    · exact Option.noConfusion h
    · rename_i st1 ds1 hcl
      obtain ⟨hInv1, hcl_cl, hnot⟩ := cleanupClient_inv st ci.id ci.roomId hInv
        (recorded_only st i ci hInv hci) st1 ds1 hcl
      have hci1 : st1.clients.get? i = some ci := by
        rw [hcl_cl]
        exact hci
      have h3 : ({ st1 with clients := st1.clients.eraseIdx i } : SState)
          = st2 := congrArg Prod.fst (Option.some.inj h)
      rw [← h3]
      refine ⟨hInv1.keysNodup, hInv1.nonempty, hInv1.memNodup, ?_, ?_⟩
      · have hsub : List.Sublist (st1.clients.eraseIdx i) st1.clients :=
          List.eraseIdx_sublist st1.clients i
        exact List.Nodup.sublist (List.Sublist.map Conn.id hsub) hInv1.idsNodup
      · intro r ms id hmem hid
        have hidne : id ≠ ci.id := fun he => hnot r ms hmem (he ▸ hid)
        rcases hInv1.memberRecorded r ms id hmem hid with ⟨c, hc, hcid, hcr⟩
        exact ⟨c, conn_mem_eraseIdx_of_ne st1.clients i ci c hci1 hc
          (by rw [hcid]; exact hidne), hcid, hcr⟩

/-- Helper: registering a fresh connection preserves the registry
invariant. -/
theorem handleConnect_inv (st : SState) (id : String) (hInv : RegInv st)
    (hfresh : id ∉ st.clients.map Conn.id) : RegInv (handleConnect st id) := by
  refine ⟨hInv.keysNodup, hInv.nonempty, hInv.memNodup, ?_, ?_⟩
  · rw [show (handleConnect st id).clients
        = st.clients ++ [⟨true, id, none⟩] from rfl]
    rw [List.map_append]
    refine List.Nodup.append hInv.idsNodup (List.nodup_singleton id) ?_
    intro x hx hx2
    have hxid : x = id := by simpa using hx2
    exact hfresh (hxid ▸ hx)
  · intro r ms cid hmem hin
    rcases hInv.memberRecorded r ms cid hmem hin with ⟨c, hc, hcid, hcr⟩
    exact ⟨c, List.mem_append_left _ hc, hcid, hcr⟩

/-- Helper: every reachable registry state satisfies the invariant. -/
theorem reachable_regInv (cfg : Option String) (st : SState)
    (h : Reachable cfg st) : RegInv st := by
  induction h with
  | init =>
    refine ⟨List.nodup_nil, ?_, ?_, List.nodup_nil, ?_⟩
    · intro p hp
      exact absurd hp (List.not_mem_nil p)
    · intro p hp
      exact absurd hp (List.not_mem_nil p)
    · intro r ms id hmem _
      exact absurd hmem (List.not_mem_nil _)
  | connect _ hfresh ih => exact handleConnect_inv _ _ ih hfresh
  | message _ ih => exact handleMessage_inv _ _ _ _ ih
  | close _ hcl ih => exact handleClose_inv _ _ _ _ ih hcl

/-- C3: in every registry state reachable by any sequence of connection,
join, leave, relay, and disconnect operations, every session present in
the registry has a non-empty member set, and every connection identifier
occurs in the member set of at most one session. -/
theorem c3_session_invariant (cfg : Option String) (st : SState)
    (h : Reachable cfg st) :
    (∀ p ∈ st.rooms, p.2 ≠ []) ∧
    (∀ id r1 ms1 r2 ms2, (r1, ms1) ∈ st.rooms → (r2, ms2) ∈ st.rooms →
      id ∈ ms1 → id ∈ ms2 → r1 = r2) := by
  have hInv := reachable_regInv cfg st h
  refine ⟨hInv.nonempty, ?_⟩
  intro id r1 ms1 r2 ms2 h1 h2 hm1 hm2
  rcases hInv.memberRecorded r1 ms1 id h1 hm1 with ⟨c1, hc1, hid1, hr1⟩
  rcases hInv.memberRecorded r2 ms2 id h2 hm2 with ⟨c2, hc2, hid2, hr2⟩
  have hceq : c1 = c2 :=
    List.inj_on_of_nodup_map hInv.idsNodup hc1 hc2 (by rw [hid1, hid2])
  have hsome : some r1 = some r2 := by rw [← hr1, hceq, hr2]
  exact Option.some.inj hsome

/-- C3 witness: the invariant at the concrete reachable state where a
fresh connection a has joined room r. -/
theorem c3_session_invariant_witness :
    (∀ p ∈ (handleMessage none (handleConnect ⟨[], []⟩ "a") 0
        joinMsgR).1.rooms, p.2 ≠ []) ∧
    (∀ id r1 ms1 r2 ms2,
      (r1, ms1) ∈ (handleMessage none (handleConnect ⟨[], []⟩ "a") 0
        joinMsgR).1.rooms →
      (r2, ms2) ∈ (handleMessage none (handleConnect ⟨[], []⟩ "a") 0
        joinMsgR).1.rooms →
      id ∈ ms1 → id ∈ ms2 → r1 = r2) :=
  c3_session_invariant none _
    (Reachable.message (Reachable.connect Reachable.init (by simp)))
